import Mathlib

/-!
Shallow embedding of the publisher transport in `src/publisher1.go`
(logstash-forwarder).  Pure data is modelled directly; the network socket is
modelled by an explicit oracle (`AttemptScript`, `ConnAttempt`) that scripts
the result of each I/O operation, and each run produces an event trace.
Machine integers are `Nat` with explicit `% 2^32` where the Go code uses
`uint32`.
-/

namespace Publisher

/-- Bytes are naturals (values 0..255 where produced by the code). -/
abbrev Byte := Nat

/-- `2^32`, the modulus of Go `uint32` arithmetic. -/
def U32 : Nat := 4294967296

/-- An event is opaque to the transport: all it exposes is `writeFrame`,
which, given the sequence number, yields the bytes it writes into the
compressor sink (publisher1.go line 51, `event.writeFrame(compressor, sequence)`). -/
structure Event where
  frame : Nat → List Byte

/-- A batch ("page"): an ordered list of events (type `eventPage`). -/
abbrev eventPage := List Event

/-- Lines 49–52 of publisher1.go: for each event of the page, increment the
worker's `uint32` counter `sequence` and hand it to the event's `writeFrame`.
Returns (bytes written into the compressor, final value of `sequence`,
sequence numbers passed to the events in order). -/
def writeFrames : eventPage → Nat → List Byte × Nat × List Nat
  | [], s => ([], s, [])
  | e :: rest, s =>
    let s1 := (s + 1) % U32
    let r := writeFrames rest s1
    (e.frame s1 ++ r.1, r.2.1, s1 :: r.2.2)

/-- Value of the worker's `sequence` variable after serializing one page. -/
def seqAfter (p : eventPage) (s : Nat) : Nat := (writeFrames p s).2.1

/-- The sequence numbers passed to the events of one page, in order. -/
def pageSeqs (p : eventPage) (s : Nat) : List Nat := (writeFrames p s).2.2

/-- The per-page sequence numbers over a whole worker run: the `sequence`
variable (line 33) lives outside the page loop (line 45) and is threaded
from one page to the next without any reset. -/
def workerSeqs : List eventPage → Nat → List (List Nat)
  | [], _ => []
  | p :: rest, s => pageSeqs p s :: workerSeqs rest (seqAfter p s)

/-- Modelled from the spec side for comparison (amended reading): batch
`i` of `K` events is numbered `S+1 .. S+K` (mod `2^32`) where `S` is the
total number of events of all earlier batches of the same worker —
a stream-global counter, never reset. -/
def streamSeqsFrom : Nat → List eventPage → List (List Nat)
  | _, [] => []
  | s, p :: rest =>
    (List.range p.length).map (fun j => (s + j + 1) % U32) :: streamSeqsFrom (s + p.length) rest

/-- `binary.Write(socket, binary.BigEndian, uint32(n))`: the four bytes of
`n` truncated to 32 bits, most significant first. -/
def be32 (n : Nat) : List Byte :=
  [n / 16777216 % 256, n / 65536 % 256, n / 256 % 256, n % 256]

/-- Big-endian value of a byte string (to characterize `be32`). -/
def beVal (bs : List Byte) : Nat := bs.foldl (fun a b => a * 256 + b) 0

/-- Lines 46–56: `buffer.Truncate(0)`, open a compressor over the buffer,
serialize the page into it, flush and close; `compressed_payload` is the
buffer contents.  `compress` abstracts the zlib level-3 stream (opaque to
the transport); `buffer` is the worker's reused buffer contents on entry. -/
def pagePayload (compress : List Byte → List Byte) (page : eventPage) (s : Nat)
    (buffer : List Byte) : List Byte :=
  let buffer1 : List Byte := List.take 0 buffer
  buffer1 ++ compress (writeFrames page s).1

/-- Result of one `socket.Read` into the 6-byte ack slice: an I/O error, or
the bytes delivered by that read. -/
inductive ReadRes where
  | err : ReadRes
  | ok : List Byte → ReadRes

/-- Oracle for one iteration of the `SendPayload` loop: whether each of the
five writes (lines 78, 83, 90, 95, 100) succeeds, and the scripted results
of the ack reads (line 110). -/
structure AttemptScript where
  wWTag : Bool
  wWLen : Bool
  wCTag : Bool
  wCLen : Bool
  wBody : Bool
  reads : List ReadRes

/-- Observable events of a worker run. -/
inductive Ev where
  | wrote : List Byte → Ev
  | writeErr : Ev
  | readAck : List Byte → Ev
  | readErr : Ev
  | sleep1 : Ev
  | closeSock : Ev
  | reconnect : Ev
  | forward : eventPage → Ev

/-- Outcome of the ack read loop (lines 107–119): completed with the chunks
consumed, aborted by a read error after the chunks consumed, or stuck
(script exhausted before `ackbytes` hit 6, including overshoot). -/
inductive AckOut where
  | complete : List (List Byte) → AckOut
  | rerr : List (List Byte) → AckOut
  | stuck : List (List Byte) → AckOut

/-- Lines 108–119: `for ackbytes != 6 { n, err := socket.Read(...) ... }`,
accumulating `ackbytes += n`; a read error aborts the loop. -/
def ackLoop : Nat → List ReadRes → AckOut
  | a, [] => if a = 6 then .complete [] else .stuck []
  | a, .err :: _ => if a = 6 then .complete [] else .rerr []
  | a, .ok bs :: rest =>
    if a = 6 then .complete []
    else
      match ackLoop (a + bs.length) rest with
      | .complete cs => .complete (bs :: cs)
      | .rerr cs => .rerr (bs :: cs)
      | .stuck cs => .stuck (bs :: cs)

/-- The five chunks one `SendPayload` iteration writes, in order:
`"1W"` (bytes 49, 87), the event count, `"1C"` (bytes 49, 67), the payload
length, the compressed payload (lines 78–100). -/
def frameChunks (K : Nat) (P : List Byte) : List (List Byte) :=
  [[49, 87], be32 K, [49, 67], be32 P.length, P]

/-- How one `SendPayload` iteration ended. -/
inductive AttemptOut where
  | wErr : AttemptOut
  | rErr : AttemptOut
  | done : List (List Byte) → AttemptOut
  | stuck : AttemptOut

/-- One iteration of the `SendPayload` loop (lines 75–123): the five writes
in order, each either succeeding (its chunk goes on the wire) or failing
(jump to the `oops` handler), then the ack read loop. -/
def runAttempt (K : Nat) (P : List Byte) (s : AttemptScript) : List Ev × AttemptOut :=
  if s.wWTag = false then ([Ev.writeErr], .wErr)
  else if s.wWLen = false then ([Ev.wrote [49, 87], Ev.writeErr], .wErr)
  else if s.wCTag = false then
    ([Ev.wrote [49, 87], Ev.wrote (be32 K), Ev.writeErr], .wErr)
  else if s.wCLen = false then
    ([Ev.wrote [49, 87], Ev.wrote (be32 K), Ev.wrote [49, 67], Ev.writeErr], .wErr)
  else if s.wBody = false then
    ([Ev.wrote [49, 87], Ev.wrote (be32 K), Ev.wrote [49, 67],
      Ev.wrote (be32 P.length), Ev.writeErr], .wErr)
  else
    match ackLoop 0 s.reads with
    | .complete cs => ((frameChunks K P).map Ev.wrote ++ cs.map Ev.readAck, .done cs)
    | .rerr cs =>
      ((frameChunks K P).map Ev.wrote ++ cs.map Ev.readAck ++ [Ev.readErr], .rErr)
    | .stuck cs => ((frameChunks K P).map Ev.wrote ++ cs.map Ev.readAck, .stuck)

/-- The `SendPayload` loop (lines 71–124) over the scripted attempts.
A write error runs `oops` (line 59: sleep 1 s, close, reconnect) and
retries; a read error closes and reconnects without sleeping (lines
112–115) and retries; a completed ack breaks out with success. -/
def sendLoop (K : Nat) (P : List Byte) : List AttemptScript → List Ev × Bool
  | [] => ([], false)
  | s :: rest =>
    match runAttempt K P s with
    | (tr, .done _) => (tr, true)
    | (tr, .wErr) =>
      let r := sendLoop K P rest
      (tr ++ [Ev.sleep1, Ev.closeSock, Ev.reconnect] ++ r.1, r.2)
    | (tr, .rErr) =>
      let r := sendLoop K P rest
      (tr ++ [Ev.closeSock, Ev.reconnect] ++ r.1, r.2)
    | (tr, .stuck) => (tr, false)

/-- Result of processing one page. -/
structure PageResult where
  trace : List Ev
  seqF : Nat
  payload : List Byte
  ok : Bool

/-- Lines 45–127: the body of the page loop.  Serialize and compress once,
run the send loop, and on success forward the original page to the
registrar (line 127). -/
def processPage (compress : List Byte → List Byte) (page : eventPage) (s : Nat)
    (buffer : List Byte) (scripts : List AttemptScript) : PageResult :=
  let payload := pagePayload compress page s buffer
  let s1 := seqAfter page s
  let r := sendLoop page.length payload scripts
  if r.2 then ⟨r.1 ++ [Ev.forward page], s1, payload, true⟩
  else ⟨r.1, s1, payload, false⟩

/-- The chunks successfully written on the wire, extracted from a trace. -/
def writesOf (tr : List Ev) : List (List Byte) :=
  tr.filterMap fun e =>
    match e with
    | .wrote bs => some bs
    | _ => none

/-- Total byte length of a list of chunks. -/
def chunksLen (cs : List (List Byte)) : Nat := (cs.map List.length).sum

/-- A script whose five writes all succeed. -/
def allWrites (s : AttemptScript) : Bool :=
  s.wWTag && s.wWLen && s.wCTag && s.wCLen && s.wBody

/-- Erase the values (not the lengths) of the ack bytes of a trace event. -/
def scrub : Ev → Ev
  | .readAck bs => .readAck (List.replicate bs.length 0)
  | e => e

/-- Two read results of the same shape: both errors, or both successful
with the same number of bytes (values may differ). -/
def readShape : ReadRes → ReadRes → Prop
  | .err, .err => True
  | .ok b1, .ok b2 => b1.length = b2.length
  | _, _ => False

/-- Two attempt scripts that differ at most in the values of the bytes read. -/
def scriptShape (s1 s2 : AttemptScript) : Prop :=
  s1.wWTag = s2.wWTag ∧ s1.wWLen = s2.wWLen ∧ s1.wCTag = s2.wCTag ∧
  s1.wCLen = s2.wCLen ∧ s1.wBody = s2.wBody ∧
  List.Forall₂ readShape s1.reads s2.reads

/-- Chunk lists of equal shape: pointwise equal lengths. -/
def chunksShape (c1 c2 : List (List Byte)) : Prop :=
  List.Forall₂ (fun b1 b2 => b1.length = b2.length) c1 c2

/-- Ack outcomes of equal shape. -/
def ackShape : AckOut → AckOut → Prop
  | .complete c1, .complete c2 => chunksShape c1 c2
  | .rerr c1, .rerr c2 => chunksShape c1 c2
  | .stuck c1, .stuck c2 => chunksShape c1 c2
  | _, _ => False

/-- Discriminator of attempt outcomes. -/
def outKind : AttemptOut → Nat
  | .wErr => 0
  | .rErr => 1
  | .done _ => 2
  | .stuck => 3

/-- An attempt script with all writes succeeding and the given reads. -/
def mkFullScript (reads : List ReadRes) : AttemptScript :=
  ⟨true, true, true, true, true, reads⟩

/-! ### Connector (lines 131–196) -/

/-- Result of one iteration of the connect loop: the dial fails, the dial
succeeds but the TLS handshake fails, or both succeed. -/
inductive ConnRes where
  | dialFail : ConnRes
  | hsFail : ConnRes
  | success : ConnRes
  deriving DecidableEq

/-- Oracle for one connection attempt: the value drawn from `rand.Int()`,
the (virtual) seconds the dial/handshake takes, and its result. -/
structure ConnAttempt where
  rand : Nat
  dur : Nat
  res : ConnRes
  deriving DecidableEq

/-- One dial attempt as observed: at which (virtual) second it starts and
which server index `rand.Int() % len(config.Servers)` picked. -/
structure DialEv where
  time : Nat
  server : Nat
  deriving DecidableEq

/-- What a terminating run of `connect` yields: the dial attempts made, how
many partially-opened sockets were closed, the server index of the returned
connection, and the (virtual) time of return. -/
structure ConnOut where
  trace : List DialEv
  closes : Nat
  server : Nat
  rtime : Nat
  deriving DecidableEq

/-- The retry loop of `connect` (lines 168–194): pick a fresh random server,
dial; on dial failure sleep 1 s and retry; on handshake failure sleep 1 s,
close the socket and retry; on success return.  The clock advances by the
attempt's duration plus the 1-second backoff sleep.  `none` models the real
loop never returning (script exhausted with no success). -/
def connect (nservers : Nat) : Nat → List ConnAttempt → Option ConnOut
  | _, [] => none
  | t, a :: rest =>
    match a.res with
    | .dialFail =>
      (connect nservers (t + a.dur + 1) rest).map
        fun r => ⟨⟨t, a.rand % nservers⟩ :: r.trace, r.closes, r.server, r.rtime⟩
    | .hsFail =>
      (connect nservers (t + a.dur + 1) rest).map
        fun r => ⟨⟨t, a.rand % nservers⟩ :: r.trace, r.closes + 1, r.server, r.rtime⟩
    | .success => some ⟨[⟨t, a.rand % nservers⟩], 0, a.rand % nservers, t + a.dur⟩

/-! ### TLS setup preamble of `connect` (lines 131–142) -/

/-- The fields of `NetworkConfig` the publisher reads. -/
structure NetworkConfig where
  SSLCertificate : String
  SSLKey : String
  SSLCA : String
  Servers : List String
  timeout : Nat

/-- Outcome of the client-certificate preamble: `log.Fatalf` (process
aborts), or proceed, recording whether a client certificate was loaded. -/
inductive SetupOutcome where
  | fatal : SetupOutcome
  | proceeded : Bool → SetupOutcome
  deriving DecidableEq

/-- Lines 134–142: only when both `SSLCertificate` and `SSLKey` are
non-empty is the pair loaded (`loadOk` scripts whether
`tls.LoadX509KeyPair` succeeds; on failure `log.Fatalf` aborts); otherwise
the block is skipped. -/
def tlsSetup (c : NetworkConfig) (loadOk : Bool) : SetupOutcome :=
  if 0 < c.SSLCertificate.length ∧ 0 < c.SSLKey.length then
    if loadOk then .proceeded true else .fatal
  else .proceeded false

/-! ### Concrete fixtures used by witnesses and counterexamples -/

/-- An event whose serialization writes nothing (its content is opaque). -/
def sampleEvent : Event := ⟨fun _ => []⟩

/-- A script: all writes succeed, the ack arrives in two partial reads. -/
def okScript : AttemptScript :=
  mkFullScript [ReadRes.ok [0, 0, 0], ReadRes.ok [0, 0, 0]]

/-- A script: all writes succeed, the first ack read errors out. -/
def rErrScript : AttemptScript := mkFullScript [ReadRes.err]

/-- A config with a certificate path but no key path. -/
def asymConfig : NetworkConfig := ⟨"cert.pem", "", "", [], 0⟩

/-- A config with both a certificate path and a key path. -/
def symConfig : NetworkConfig := ⟨"cert.pem", "key.pem", "", [], 0⟩

/-- A connection attempt whose dial fails. -/
def dialFailAttempt : ConnAttempt := ⟨0, 0, ConnRes.dialFail⟩

/-- A connection attempt whose TLS handshake fails. -/
def hsFailAttempt : ConnAttempt := ⟨3, 0, ConnRes.hsFail⟩

/-- A connection attempt that succeeds. -/
def successAttempt : ConnAttempt := ⟨5, 2, ConnRes.success⟩

/-! ## Lemmas about sequence numbering -/

theorem U32_pos : 0 < U32 := by norm_num [U32]

theorem writeFrames_cons (e : Event) (rest : eventPage) (s : Nat) :
    writeFrames (e :: rest) s =
      (e.frame ((s + 1) % U32) ++ (writeFrames rest ((s + 1) % U32)).1,
       (writeFrames rest ((s + 1) % U32)).2.1,
       ((s + 1) % U32) :: (writeFrames rest ((s + 1) % U32)).2.2) := rfl

theorem pageSeqs_eq (p : eventPage) (s : Nat) :
    pageSeqs p s = (List.range p.length).map (fun j => (s + j + 1) % U32) := by
  induction p generalizing s with
  | nil => rfl
  | cons e rest ih =>
    show ((s + 1) % U32) :: pageSeqs rest ((s + 1) % U32) = _
    rw [List.length_cons, List.range_succ_eq_map, List.map_cons, List.map_map, ih]
    refine congrArg₂ _ (by simp) (List.map_congr_left ?_)
    intro j _
    simp only [Function.comp_apply, U32]
    omega

theorem seqAfter_eq (p : eventPage) (s : Nat) (hs : s < U32) :
    seqAfter p s = (s + p.length) % U32 := by
  induction p generalizing s with
  | nil =>
    show s = (s + 0) % U32
    rw [Nat.add_zero, Nat.mod_eq_of_lt hs]
  | cons e rest ih =>
    show (writeFrames rest ((s + 1) % U32)).2.1 = _
    rw [show (writeFrames rest ((s + 1) % U32)).2.1 = seqAfter rest ((s + 1) % U32) from rfl,
      ih _ (Nat.mod_lt _ U32_pos)]
    simp only [List.length_cons, U32]
    omega

theorem workerSeqs_mod (pages : List eventPage) (s : Nat) :
    workerSeqs pages (s % U32) = streamSeqsFrom s pages := by
  induction pages generalizing s with
  | nil => rfl
  | cons p rest ih =>
    show pageSeqs p (s % U32) :: workerSeqs rest (seqAfter p (s % U32)) = _
    rw [seqAfter_eq p _ (Nat.mod_lt _ U32_pos), pageSeqs_eq]
    have h2 : (s % U32 + p.length) % U32 = (s + p.length) % U32 := by
      simp only [U32]; omega
    rw [h2, ih (s + p.length)]
    show _ :: _ = _ :: _
    refine congrArg₂ _ (List.map_congr_left ?_) rfl
    intro j _
    simp only [U32]
    omega

/-! ## Lemmas about the ack read loop and the send loop -/

theorem chunksLen_nil : chunksLen [] = 0 := rfl

theorem chunksLen_cons (b : List Byte) (cs : List (List Byte)) :
    chunksLen (b :: cs) = b.length + chunksLen cs := by
  simp [chunksLen]

theorem ackLoop_complete_sum (rs : List ReadRes) :
    ∀ a cs, ackLoop a rs = AckOut.complete cs → a + chunksLen cs = 6 := by
  induction rs with
  | nil =>
    intro a cs h
    simp only [ackLoop] at h
    split at h
    · cases h
      simpa [chunksLen_nil] using ‹a = 6›
    · cases h
  | cons r rest ih =>
    intro a cs h
    cases r with
    | err =>
      simp only [ackLoop] at h
      split at h
      · cases h
        simpa [chunksLen_nil] using ‹a = 6›
      · cases h
    | ok bs =>
      simp only [ackLoop] at h
      split at h
      · cases h
        simpa [chunksLen_nil] using ‹a = 6›
      · rename_i hne
        cases hA : ackLoop (a + bs.length) rest with
        | complete cs2 =>
          rw [hA] at h
          cases h
          have := ih (a + bs.length) cs2 hA
          rw [chunksLen_cons]
          omega
        | rerr cs2 => rw [hA] at h; cases h
        | stuck cs2 => rw [hA] at h; cases h

theorem ackLoop_all_ok_complete (chunks : List (List Byte)) :
    ∀ a, a + chunksLen chunks = 6 →
      ∃ cs, ackLoop a (chunks.map ReadRes.ok) = AckOut.complete cs := by
  induction chunks with
  | nil =>
    intro a h
    rw [chunksLen_nil] at h
    exact ⟨[], by simp [ackLoop]; omega⟩
  | cons c rest ih =>
    intro a h
    rw [chunksLen_cons] at h
    by_cases ha : a = 6
    · exact ⟨[], by simp [ackLoop, ha]⟩
    · obtain ⟨cs, hcs⟩ := ih (a + c.length) (by omega)
      exact ⟨c :: cs, by simp [ackLoop, ha, hcs]⟩

theorem runAttempt_allWrites (K : Nat) (P : List Byte) (a : AttemptScript)
    (h : allWrites a = true) :
    runAttempt K P a =
      (match ackLoop 0 a.reads with
       | .complete cs => ((frameChunks K P).map Ev.wrote ++ cs.map Ev.readAck, .done cs)
       | .rerr cs =>
         ((frameChunks K P).map Ev.wrote ++ cs.map Ev.readAck ++ [Ev.readErr], .rErr)
       | .stuck cs => ((frameChunks K P).map Ev.wrote ++ cs.map Ev.readAck, .stuck)) := by
  simp only [allWrites, Bool.and_eq_true] at h
  obtain ⟨⟨⟨⟨h1, h2⟩, h3⟩, h4⟩, h5⟩ := h
  simp [runAttempt, h1, h2, h3, h4, h5]

theorem runAttempt_cases (K : Nat) (P : List Byte) (a : AttemptScript) :
    (∃ k, k < 5 ∧ runAttempt K P a =
        (((frameChunks K P).take k).map Ev.wrote ++ [Ev.writeErr], .wErr)) ∨
    (∃ cs, ackLoop 0 a.reads = AckOut.complete cs ∧
      runAttempt K P a = ((frameChunks K P).map Ev.wrote ++ cs.map Ev.readAck, .done cs)) ∨
    (∃ cs, ackLoop 0 a.reads = AckOut.rerr cs ∧
      runAttempt K P a =
        ((frameChunks K P).map Ev.wrote ++ cs.map Ev.readAck ++ [Ev.readErr], .rErr)) ∨
    (∃ cs, ackLoop 0 a.reads = AckOut.stuck cs ∧
      runAttempt K P a = ((frameChunks K P).map Ev.wrote ++ cs.map Ev.readAck, .stuck)) := by
  by_cases h1 : a.wWTag = false
  · exact Or.inl ⟨0, by omega, by simp [runAttempt, h1, frameChunks]⟩
  by_cases h2 : a.wWLen = false
  · exact Or.inl ⟨1, by omega, by simp [runAttempt, h1, h2, frameChunks]⟩
  by_cases h3 : a.wCTag = false
  · exact Or.inl ⟨2, by omega, by simp [runAttempt, h1, h2, h3, frameChunks]⟩
  by_cases h4 : a.wCLen = false
  · exact Or.inl ⟨3, by omega, by simp [runAttempt, h1, h2, h3, h4, frameChunks]⟩
  by_cases h5 : a.wBody = false
  · exact Or.inl ⟨4, by omega, by simp [runAttempt, h1, h2, h3, h4, h5, frameChunks]⟩
  have hW : allWrites a = true := by
    simp only [allWrites, Bool.and_eq_true]
    simp only [Bool.not_eq_false] at h1 h2 h3 h4 h5
    exact ⟨⟨⟨⟨h1, h2⟩, h3⟩, h4⟩, h5⟩
  have hE := runAttempt_allWrites K P a hW
  cases hA : ackLoop 0 a.reads with
  | complete cs =>
    refine Or.inr (Or.inl ⟨cs, rfl, ?_⟩)
    rw [hE, hA]
  | rerr cs =>
    refine Or.inr (Or.inr (Or.inl ⟨cs, rfl, ?_⟩))
    rw [hE, hA]
  | stuck cs =>
    refine Or.inr (Or.inr (Or.inr ⟨cs, rfl, ?_⟩))
    rw [hE, hA]

theorem writesOf_append (a b : List Ev) : writesOf (a ++ b) = writesOf a ++ writesOf b :=
  List.filterMap_append a b _

theorem writesOf_map_wrote (l : List (List Byte)) : writesOf (l.map Ev.wrote) = l := by
  induction l with
  | nil => rfl
  | cons c t ih =>
    simp only [writesOf, List.map_cons, List.filterMap_cons] at ih ⊢
    rw [ih]

theorem writesOf_map_readAck (cs : List (List Byte)) : writesOf (cs.map Ev.readAck) = [] := by
  induction cs with
  | nil => rfl
  | cons c t ih =>
    simp only [writesOf, List.map_cons, List.filterMap_cons] at ih ⊢
    exact ih

theorem writesOf_writeErr : writesOf [Ev.writeErr] = [] := rfl

theorem writesOf_readErr : writesOf [Ev.readErr] = [] := rfl

theorem frameChunks_take_five (K : Nat) (P : List Byte) :
    (frameChunks K P).take 5 = frameChunks K P := rfl

theorem runAttempt_writes_take (K : Nat) (P : List Byte) (a : AttemptScript) :
    ∃ k, k ≤ 5 ∧ writesOf (runAttempt K P a).1 = (frameChunks K P).take k := by
  rcases runAttempt_cases K P a with ⟨k, hk, hE⟩ | ⟨cs, _, hE⟩ | ⟨cs, _, hE⟩ | ⟨cs, _, hE⟩
  · exact ⟨k, by omega, by
      rw [hE, writesOf_append, writesOf_map_wrote, writesOf_writeErr, List.append_nil]⟩
  · exact ⟨5, by omega, by
      rw [hE, writesOf_append, writesOf_map_wrote, writesOf_map_readAck, List.append_nil,
        frameChunks_take_five]⟩
  · exact ⟨5, by omega, by
      rw [hE, writesOf_append, writesOf_append, writesOf_map_wrote, writesOf_map_readAck,
        writesOf_readErr, List.append_nil, List.append_nil, frameChunks_take_five]⟩
  · exact ⟨5, by omega, by
      rw [hE, writesOf_append, writesOf_map_wrote, writesOf_map_readAck, List.append_nil,
        frameChunks_take_five]⟩

theorem runAttempt_allWrites_writes (K : Nat) (P : List Byte) (a : AttemptScript)
    (h : allWrites a = true) :
    writesOf (runAttempt K P a).1 = frameChunks K P ∧
    ∃ tl, (runAttempt K P a).1 = (frameChunks K P).map Ev.wrote ++ tl ∧ writesOf tl = [] := by
  have hE := runAttempt_allWrites K P a h
  cases hA : ackLoop 0 a.reads with
  | complete cs =>
    rw [hE, hA]
    exact ⟨by rw [writesOf_append, writesOf_map_wrote, writesOf_map_readAck, List.append_nil],
      cs.map Ev.readAck, rfl, writesOf_map_readAck cs⟩
  | rerr cs =>
    rw [hE, hA]
    refine ⟨by
      rw [writesOf_append, writesOf_append, writesOf_map_wrote, writesOf_map_readAck,
        writesOf_readErr, List.append_nil, List.append_nil], cs.map Ev.readAck ++ [Ev.readErr],
      List.append_assoc _ _ _, ?_⟩
    rw [writesOf_append, writesOf_map_readAck, writesOf_readErr, List.append_nil]
  | stuck cs =>
    rw [hE, hA]
    exact ⟨by rw [writesOf_append, writesOf_map_wrote, writesOf_map_readAck, List.append_nil],
      cs.map Ev.readAck, rfl, writesOf_map_readAck cs⟩

theorem forward_not_mem_map_wrote (l : List (List Byte)) (q : eventPage) :
    Ev.forward q ∉ l.map Ev.wrote := by
  intro h
  obtain ⟨x, _, hx⟩ := List.mem_map.mp h
  exact Ev.noConfusion hx

theorem forward_not_mem_map_readAck (cs : List (List Byte)) (q : eventPage) :
    Ev.forward q ∉ cs.map Ev.readAck := by
  intro h
  obtain ⟨x, _, hx⟩ := List.mem_map.mp h
  exact Ev.noConfusion hx

theorem forward_not_mem_runAttempt (K : Nat) (P : List Byte) (a : AttemptScript)
    (q : eventPage) : Ev.forward q ∉ (runAttempt K P a).1 := by
  rcases runAttempt_cases K P a with ⟨k, _, hE⟩ | ⟨cs, _, hE⟩ | ⟨cs, _, hE⟩ | ⟨cs, _, hE⟩ <;>
    rw [hE] <;> intro h
  · rcases List.mem_append.mp h with h1 | h1
    · exact forward_not_mem_map_wrote _ q h1
    · rw [List.mem_singleton] at h1
      exact Ev.noConfusion h1
  · rcases List.mem_append.mp h with h1 | h1
    · exact forward_not_mem_map_wrote _ q h1
    · exact forward_not_mem_map_readAck _ q h1
  · rcases List.mem_append.mp h with h1 | h1
    · rcases List.mem_append.mp h1 with h2 | h2
      · exact forward_not_mem_map_wrote _ q h2
      · exact forward_not_mem_map_readAck _ q h2
    · rw [List.mem_singleton] at h1
      exact Ev.noConfusion h1
  · rcases List.mem_append.mp h with h1 | h1
    · exact forward_not_mem_map_wrote _ q h1
    · exact forward_not_mem_map_readAck _ q h1

theorem sendLoop_forward_free (K : Nat) (P : List Byte) :
    ∀ (scripts : List AttemptScript) (q : eventPage),
      Ev.forward q ∉ (sendLoop K P scripts).1 := by
  intro scripts
  induction scripts with
  | nil => intro q h; simp [sendLoop] at h
  | cons a rest ih =>
    intro q h
    have hAtt := forward_not_mem_runAttempt K P a q
    rcases hO : runAttempt K P a with ⟨tr, out⟩
    rw [hO] at hAtt
    cases out with
    | done cs =>
      simp only [sendLoop, hO] at h
      exact hAtt h
    | wErr =>
      simp only [sendLoop, hO] at h
      rcases List.mem_append.mp h with h1 | h1
      · rcases List.mem_append.mp h1 with h2 | h2
        · exact hAtt h2
        · simp at h2
      · exact ih q h1
    | rErr =>
      simp only [sendLoop, hO] at h
      rcases List.mem_append.mp h with h1 | h1
      · rcases List.mem_append.mp h1 with h2 | h2
        · exact hAtt h2
        · simp at h2
      · exact ih q h1
    | stuck =>
      simp only [sendLoop, hO] at h
      exact hAtt h

theorem sendLoop_true_shape (K : Nat) (P : List Byte) :
    ∀ scripts : List AttemptScript, (sendLoop K P scripts).2 = true →
      ∃ pre cs,
        (sendLoop K P scripts).1 =
          pre ++ (frameChunks K P).map Ev.wrote ++ cs.map Ev.readAck ∧
        chunksLen cs = 6 := by
  intro scripts
  induction scripts with
  | nil => intro h; simp [sendLoop] at h
  | cons a rest ih =>
    intro h
    rcases runAttempt_cases K P a with ⟨k, _, hE⟩ | ⟨cs, hA, hE⟩ | ⟨cs, _, hE⟩ | ⟨cs, _, hE⟩
    · simp only [sendLoop, hE] at h ⊢
      obtain ⟨pre, cs, hTr, hLen⟩ := ih h
      refine ⟨((frameChunks K P).take k).map Ev.wrote ++ [Ev.writeErr] ++
        [Ev.sleep1, Ev.closeSock, Ev.reconnect] ++ pre, cs, ?_, hLen⟩
      rw [hTr]
      simp [List.append_assoc]
    · simp only [sendLoop, hE] at h ⊢
      have hLen : chunksLen cs = 6 := by
        have := ackLoop_complete_sum a.reads 0 cs hA
        omega
      exact ⟨[], cs, by simp, hLen⟩
    · simp only [sendLoop, hE] at h ⊢
      obtain ⟨pre, cs2, hTr, hLen⟩ := ih h
      refine ⟨(frameChunks K P).map Ev.wrote ++ cs.map Ev.readAck ++ [Ev.readErr] ++
        [Ev.closeSock, Ev.reconnect] ++ pre, cs2, ?_, hLen⟩
      rw [hTr]
      simp [List.append_assoc]
    · simp only [sendLoop, hE] at h
      simp at h

/-! ## Claim theorems: C1, C3, C4, C8 -/

/-- Claim C1: a page is forwarded to the registrar only after the ack read
loop has completed with exactly 6 bytes: in every successful run the trace
is some prefix, then the five frame writes, then the ack chunks (totalling
6 bytes), then — and only then, as the very last event — the forwarding of
the original page value (not its encoded bytes); `forward` occurs nowhere
else in the trace. -/
theorem forward_only_after_complete_ack (compress : List Byte → List Byte)
    (page : eventPage) (s : Nat) (buffer : List Byte) (scripts : List AttemptScript)
    (h : (processPage compress page s buffer scripts).ok = true) :
    ∃ pre cs,
      (processPage compress page s buffer scripts).trace =
        (pre ++ (frameChunks page.length (pagePayload compress page s buffer)).map Ev.wrote
          ++ cs.map Ev.readAck) ++ [Ev.forward page] ∧
      chunksLen cs = 6 ∧
      ∀ q : eventPage,
        Ev.forward q ∉
          pre ++ (frameChunks page.length (pagePayload compress page s buffer)).map Ev.wrote
            ++ cs.map Ev.readAck := by
  have hc : (sendLoop page.length (pagePayload compress page s buffer) scripts).2 = true := by
    by_contra hc
    simp only [processPage, if_neg hc] at h
    simp at h
  obtain ⟨pre, cs, hTr, hLen⟩ := sendLoop_true_shape _ _ scripts hc
  refine ⟨pre, cs, ?_, hLen, ?_⟩
  · simp only [processPage, if_pos hc]
    rw [hTr]
  · intro q
    rw [← hTr]
    exact sendLoop_forward_free _ _ scripts q

theorem forward_only_after_complete_ack_witness :
    ∃ pre cs,
      (processPage (fun bs => bs) [sampleEvent] 0 [7] [okScript]).trace =
        (pre ++ (frameChunks 1 (pagePayload (fun bs => bs) [sampleEvent] 0 [7])).map Ev.wrote
          ++ cs.map Ev.readAck) ++ [Ev.forward [sampleEvent]] ∧
      chunksLen cs = 6 ∧
      ∀ q : eventPage,
        Ev.forward q ∉
          pre ++ (frameChunks 1 (pagePayload (fun bs => bs) [sampleEvent] 0 [7])).map Ev.wrote
            ++ cs.map Ev.readAck :=
  forward_only_after_complete_ack (fun bs => bs) [sampleEvent] 0 [7] [okScript] rfl

/-- Claim C3: the ack read loop accumulates partial reads — any sequence of
successful reads whose lengths sum to 6 completes the loop having consumed
exactly 6 bytes — and a read error makes the worker reconnect and retry the
whole payload send from the window frame on the remaining script, with the
partial read progress discarded. -/
theorem ack_partial_reads_and_retry (chunks : List (List Byte))
    (h : chunksLen chunks = 6) :
    (∃ cs, ackLoop 0 (chunks.map ReadRes.ok) = AckOut.complete cs ∧ chunksLen cs = 6) ∧
    ∀ (K : Nat) (P : List Byte) (a : AttemptScript) (rest : List AttemptScript),
      (runAttempt K P a).2 = AttemptOut.rErr →
      sendLoop K P (a :: rest) =
        ((runAttempt K P a).1 ++ [Ev.closeSock, Ev.reconnect] ++ (sendLoop K P rest).1,
         (sendLoop K P rest).2) := by
  constructor
  · obtain ⟨cs, hcs⟩ := ackLoop_all_ok_complete chunks 0 (by omega)
    refine ⟨cs, hcs, ?_⟩
    have := ackLoop_complete_sum (chunks.map ReadRes.ok) 0 cs hcs
    omega
  · intro K P a rest hR
    rcases hO : runAttempt K P a with ⟨tr, out⟩
    rw [hO] at hR
    simp only at hR
    subst hR
    simp [sendLoop, hO]

theorem ack_partial_reads_and_retry_witness :
    (∃ cs, ackLoop 0 ([[1, 2], [3], [4, 5, 6]].map ReadRes.ok) = AckOut.complete cs ∧
      chunksLen cs = 6) ∧
    sendLoop 1 [] [rErrScript] =
      ((runAttempt 1 [] rErrScript).1 ++ [Ev.closeSock, Ev.reconnect] ++
        (sendLoop 1 [] []).1, (sendLoop 1 [] []).2) :=
  ⟨(ack_partial_reads_and_retry [[1, 2], [3], [4, 5, 6]] (by decide)).1,
   (ack_partial_reads_and_retry [[1, 2], [3], [4, 5, 6]] (by decide)).2 1 [] rErrScript []
     rfl⟩

/-- Claim C4: the compressed payload is computed exactly once per page,
before and independently of the send-and-acknowledge loop, and every
attempt writes a prefix of one fixed chunk sequence — so every attempt that
gets through all five writes (in particular every retry after a reconnect)
puts byte-identical window-size and compressed-payload frames on the wire,
without re-serializing. -/
theorem payload_computed_once_retries_identical (compress : List Byte → List Byte)
    (page : eventPage) (s : Nat) (buffer : List Byte) (a1 a2 : AttemptScript)
    (h1 : allWrites a1 = true) (h2 : allWrites a2 = true) :
    (∀ scripts : List AttemptScript,
      (processPage compress page s buffer scripts).payload =
        pagePayload compress page s buffer) ∧
    (∀ a : AttemptScript, ∃ k, k ≤ 5 ∧
      writesOf (runAttempt page.length (pagePayload compress page s buffer) a).1 =
        (frameChunks page.length (pagePayload compress page s buffer)).take k) ∧
    writesOf (runAttempt page.length (pagePayload compress page s buffer) a1).1 =
      frameChunks page.length (pagePayload compress page s buffer) ∧
    writesOf (runAttempt page.length (pagePayload compress page s buffer) a2).1 =
      writesOf (runAttempt page.length (pagePayload compress page s buffer) a1).1 := by
  refine ⟨?_, ?_, ?_, ?_⟩
  · intro scripts
    simp only [processPage]
    split <;> rfl
  · intro a
    exact runAttempt_writes_take _ _ a
  · exact (runAttempt_allWrites_writes _ _ a1 h1).1
  · rw [(runAttempt_allWrites_writes _ _ a1 h1).1,
      (runAttempt_allWrites_writes _ _ a2 h2).1]

theorem payload_computed_once_retries_identical_witness :
    ((processPage (fun bs => bs) [sampleEvent] 0 [] [okScript]).payload =
      pagePayload (fun bs => bs) [sampleEvent] 0 []) ∧
    (∃ k, k ≤ 5 ∧
      writesOf (runAttempt 1 (pagePayload (fun bs => bs) [sampleEvent] 0 []) rErrScript).1 =
        (frameChunks 1 (pagePayload (fun bs => bs) [sampleEvent] 0 [])).take k) ∧
    writesOf (runAttempt 1 (pagePayload (fun bs => bs) [sampleEvent] 0 []) okScript).1 =
      frameChunks 1 (pagePayload (fun bs => bs) [sampleEvent] 0 []) ∧
    writesOf (runAttempt 1 (pagePayload (fun bs => bs) [sampleEvent] 0 []) okScript).1 =
      writesOf (runAttempt 1 (pagePayload (fun bs => bs) [sampleEvent] 0 []) okScript).1 :=
  have h := payload_computed_once_retries_identical (fun bs => bs) [sampleEvent] 0 []
    okScript okScript rfl rfl
  ⟨h.1 [okScript], h.2.1 rErrScript, h.2.2.1, h.2.2.2⟩

/-- Claim C8: an attempt whose writes all succeed puts exactly these chunks
on the wire, in order and before any ack read: the window tag (version
byte 49 = ASCII 1, then 87 = ASCII W), the event count as 4 big-endian
bytes, the payload tag (49, then 67 = ASCII C), the payload byte-length as
4 big-endian bytes, then exactly the payload bytes; `be32 n` is the
big-endian 4-byte encoding of `n mod 2^32`. -/
theorem frame_bytes_exact (page : eventPage) (P : List Byte) (a : AttemptScript)
    (h : allWrites a = true) :
    writesOf (runAttempt page.length P a).1 =
      [[49, 87], be32 page.length, [49, 67], be32 P.length, P] ∧
    (∃ tl, (runAttempt page.length P a).1 =
      ([[49, 87], be32 page.length, [49, 67], be32 P.length, P]).map Ev.wrote ++ tl ∧
      writesOf tl = []) ∧
    ∀ n : Nat, beVal (be32 n) = n % 4294967296 ∧ (be32 n).length = 4 := by
  obtain ⟨hW, tl, hTr, hTl⟩ := runAttempt_allWrites_writes page.length P a h
  refine ⟨hW, ⟨tl, hTr, hTl⟩, ?_⟩
  intro n
  constructor
  · simp only [beVal, be32, List.foldl]
    omega
  · simp [be32]

theorem frame_bytes_exact_witness :
    writesOf (runAttempt 1 [9] okScript).1 =
      [[49, 87], be32 1, [49, 67], be32 1, [9]] ∧
    (∃ tl, (runAttempt 1 [9] okScript).1 =
      ([[49, 87], be32 1, [49, 67], be32 1, [9]]).map Ev.wrote ++ tl ∧
      writesOf tl = []) ∧
    (beVal (be32 7) = 7 % 4294967296 ∧ (be32 7).length = 4) :=
  ⟨(frame_bytes_exact [sampleEvent] [9] okScript rfl).1,
   (frame_bytes_exact [sampleEvent] [9] okScript rfl).2.1,
   (frame_bytes_exact [sampleEvent] [9] okScript rfl).2.2 7⟩

/-- Claim C2 counterexample: the worker's `sequence` counter is not reset
between batches.  A worker that processes two one-event batches passes
sequence number 2 (not 1) to the second batch's event, refuting both
"exactly 1..K for every batch" and "reset to 0 at the start of every batch". -/
theorem seq_numbers_not_batch_local :
    workerSeqs [[sampleEvent], [sampleEvent]] 0 = [[1], [2]] ∧
    workerSeqs [[sampleEvent], [sampleEvent]] 0 ≠ [[1], [1]] := by
  constructor
  · rfl
  · decide

/-- Claim C2 (amended): sequence numbers are stream-global per worker, not
batch-local: the batch whose predecessors held `S` events in total gets
sequence numbers `S+1 .. S+K` (mod `2^32`) in batch order, and the counter
is never reset.  They are still independent of reconnects: the sequence
state after a page depends only on the page and the entry state, never on
the send-loop scripts. -/
theorem seq_numbers_stream_global (pages : List eventPage) :
    workerSeqs pages 0 = streamSeqsFrom 0 pages ∧
    ∀ (compress : List Byte → List Byte) (page : eventPage) (s : Nat)
      (buffer : List Byte) (scripts : List AttemptScript),
      (processPage compress page s buffer scripts).seqF = seqAfter page s := by
  constructor
  · have h := workerSeqs_mod pages 0
    rwa [Nat.zero_mod] at h
  · intro compress page s buffer scripts
    simp only [processPage]
    split <;> rfl

/-- Claim C7 counterexample: `connect` only loads the client certificate
when BOTH paths are non-empty (`&&` at line 134); a certificate path with
an empty key path is silently skipped, and the process does not abort. -/
theorem asym_ssl_config_not_fatal :
    0 < asymConfig.SSLCertificate.length ∧ asymConfig.SSLKey.length = 0 ∧
    tlsSetup asymConfig true = SetupOutcome.proceeded false ∧
    tlsSetup asymConfig false = SetupOutcome.proceeded false ∧
    tlsSetup asymConfig true ≠ SetupOutcome.fatal := by decide

/-- Claim C7 (amended): an asymmetric certificate/key configuration is
silently ignored (the worker proceeds without a client certificate, no
fatal error); the eager fatal abort happens only when both paths are given
and loading the pair fails. -/
theorem asym_ssl_config_silently_skipped (c : NetworkConfig) (lo : Bool)
    (h : c.SSLCertificate.length = 0 ∨ c.SSLKey.length = 0) :
    tlsSetup c lo = SetupOutcome.proceeded false ∧
    ∀ c2 : NetworkConfig, 0 < c2.SSLCertificate.length → 0 < c2.SSLKey.length →
      tlsSetup c2 false = SetupOutcome.fatal := by
  constructor
  · have hn : ¬(0 < c.SSLCertificate.length ∧ 0 < c.SSLKey.length) := by omega
    simp [tlsSetup, hn]
  · intro c2 h1 h2
    simp [tlsSetup, h1, h2]

theorem asym_ssl_config_silently_skipped_witness :
    tlsSetup asymConfig true = SetupOutcome.proceeded false ∧
    tlsSetup symConfig false = SetupOutcome.fatal :=
  ⟨(asym_ssl_config_silently_skipped asymConfig true (by decide)).1,
   (asym_ssl_config_silently_skipped asymConfig true (by decide)).2 symConfig
     (by decide) (by decide)⟩

/-- Claim C10: `buffer.Truncate(0)` (line 46) runs before the compressor is
opened for each batch, so the compressed payload of a batch is exactly the
compression of that batch's event frames, independent of whatever the
reused buffer held beforehand; and that is the payload the send loop
transmits. -/
theorem buffer_truncated_per_batch (compress : List Byte → List Byte)
    (page : eventPage) (s : Nat) (b1 b2 : List Byte) (scripts : List AttemptScript) :
    pagePayload compress page s b1 = compress (writeFrames page s).1 ∧
    pagePayload compress page s b1 = pagePayload compress page s b2 ∧
    (processPage compress page s b1 scripts).payload = compress (writeFrames page s).1 := by
  refine ⟨rfl, rfl, ?_⟩
  simp only [processPage]
  split <;> rfl

/-! ## Lemmas about the connector, and claims C5, C6 -/

theorem connect_time_lb (n : Nat) :
    ∀ (as : List ConnAttempt) (t : Nat) (r : ConnOut), connect n t as = some r →
      ∀ e ∈ r.trace, t ≤ e.time := by
  intro as
  induction as with
  | nil =>
    intro t r h
    cases h
  | cons a rest ih =>
    intro t r h e he
    obtain ⟨ar, ad, ares⟩ := a
    cases ares with
    | dialFail =>
      simp only [connect] at h
      cases hc : connect n (t + ad + 1) rest with
      | none => rw [hc] at h; cases h
      | some r2 =>
        rw [hc] at h
        simp only [Option.map_some'] at h
        cases h
        rcases List.mem_cons.mp he with rfl | hm
        · exact Nat.le_refl t
        · have := ih (t + ad + 1) r2 hc e hm
          omega
    | hsFail =>
      simp only [connect] at h
      cases hc : connect n (t + ad + 1) rest with
      | none => rw [hc] at h; cases h
      | some r2 =>
        rw [hc] at h
        simp only [Option.map_some'] at h
        cases h
        rcases List.mem_cons.mp he with rfl | hm
        · exact Nat.le_refl t
        · have := ih (t + ad + 1) r2 hc e hm
          omega
    | success =>
      simp only [connect] at h
      cases h
      rcases List.mem_cons.mp he with rfl | hm
      · exact Nat.le_refl t
      · cases hm

/-- Claim C5: within one failure chain — one run of the `connect` retry
loop — any two consecutive dial attempts are separated by at least the
1-second backoff: both the dial-failure path (line 176) and the
handshake-failure path (line 185) sleep one second before the next attempt. -/
theorem backoff_floor (n t : Nat) (as : List ConnAttempt) (r : ConnOut)
    (h : connect n t as = some r) :
    List.Chain' (fun d1 d2 => d1.time + 1 ≤ d2.time) r.trace := by
  induction as generalizing t r with
  | nil => cases h
  | cons a rest ih =>
    obtain ⟨ar, ad, ares⟩ := a
    cases ares with
    | dialFail =>
      simp only [connect] at h
      cases hc : connect n (t + ad + 1) rest with
      | none => rw [hc] at h; cases h
      | some r2 =>
        rw [hc] at h
        simp only [Option.map_some'] at h
        cases h
        refine List.chain'_cons'.mpr ⟨?_, ih (t + ad + 1) r2 hc⟩
        intro b hb
        have hm := List.mem_of_mem_head? hb
        have := connect_time_lb n rest (t + ad + 1) r2 hc b hm
        show t + 1 ≤ b.time
        omega
    | hsFail =>
      simp only [connect] at h
      cases hc : connect n (t + ad + 1) rest with
      | none => rw [hc] at h; cases h
      | some r2 =>
        rw [hc] at h
        simp only [Option.map_some'] at h
        cases h
        refine List.chain'_cons'.mpr ⟨?_, ih (t + ad + 1) r2 hc⟩
        intro b hb
        have hm := List.mem_of_mem_head? hb
        have := connect_time_lb n rest (t + ad + 1) r2 hc b hm
        show t + 1 ≤ b.time
        omega
    | success =>
      simp only [connect] at h
      cases h
      exact List.chain'_singleton _

theorem backoff_floor_witness :
    List.Chain' (fun d1 d2 => d1.time + 1 ≤ d2.time)
      (ConnOut.mk [DialEv.mk 0 0, DialEv.mk 1 1] 0 1 1).trace :=
  backoff_floor 2 0 [ConnAttempt.mk 0 0 ConnRes.dialFail, ConnAttempt.mk 1 0 ConnRes.success]
    (ConnOut.mk [DialEv.mk 0 0, DialEv.mk 1 1] 0 1 1) rfl

theorem connect_isSome (n : Nat) :
    ∀ (as : List ConnAttempt) (t : Nat),
      (connect n t as).isSome = true ↔ ∃ a ∈ as, a.res = ConnRes.success := by
  intro as
  induction as with
  | nil => intro t; simp [connect]
  | cons a rest ih =>
    intro t
    obtain ⟨ar, ad, ares⟩ := a
    cases ares with
    | dialFail =>
      simp only [connect]
      constructor
      · intro h
        cases hc : connect n (t + ad + 1) rest with
        | none => rw [hc] at h; simp at h
        | some r2 =>
          obtain ⟨b, hb, hbs⟩ := (ih (t + ad + 1)).mp (by rw [hc]; rfl)
          exact ⟨b, List.mem_cons_of_mem _ hb, hbs⟩
      · rintro ⟨b, hb, hbs⟩
        rcases List.mem_cons.mp hb with rfl | hb2
        · cases hbs
        · have h2 := (ih (t + ad + 1)).mpr ⟨b, hb2, hbs⟩
          cases hc : connect n (t + ad + 1) rest with
          | none => rw [hc] at h2; simp at h2
          | some r2 => rfl
    | hsFail =>
      simp only [connect]
      constructor
      · intro h
        cases hc : connect n (t + ad + 1) rest with
        | none => rw [hc] at h; simp at h
        | some r2 =>
          obtain ⟨b, hb, hbs⟩ := (ih (t + ad + 1)).mp (by rw [hc]; rfl)
          exact ⟨b, List.mem_cons_of_mem _ hb, hbs⟩
      · rintro ⟨b, hb, hbs⟩
        rcases List.mem_cons.mp hb with rfl | hb2
        · cases hbs
        · have h2 := (ih (t + ad + 1)).mpr ⟨b, hb2, hbs⟩
          cases hc : connect n (t + ad + 1) rest with
          | none => rw [hc] at h2; simp at h2
          | some r2 => rfl
    | success =>
      simp only [connect]
      exact ⟨fun _ => ⟨⟨ar, ad, ConnRes.success⟩, List.mem_cons_self _ _, rfl⟩, fun _ => rfl⟩

theorem connect_shape (n : Nat) (a : ConnAttempt) (rest : List ConnAttempt)
    (ha : a.res = ConnRes.success) :
    ∀ (fails : List ConnAttempt) (t : Nat), (∀ b ∈ fails, b.res ≠ ConnRes.success) →
      ∃ r, connect n t (fails ++ a :: rest) = some r ∧
        r.server = a.rand % n ∧
        r.trace.map DialEv.server = fails.map (fun b => b.rand % n) ++ [a.rand % n] ∧
        r.closes = fails.countP (fun b => decide (b.res = ConnRes.hsFail)) := by
  intro fails
  induction fails with
  | nil =>
    intro t _
    refine ⟨⟨[⟨t, a.rand % n⟩], 0, a.rand % n, t + a.dur⟩, ?_, rfl, by simp, by simp⟩
    simp [connect, ha]
  | cons f fs ih =>
    intro t hf
    have hf1 : f.res ≠ ConnRes.success := hf f (List.mem_cons_self _ _)
    have hff : ∀ b ∈ fs, b.res ≠ ConnRes.success :=
      fun b hb => hf b (List.mem_cons_of_mem _ hb)
    obtain ⟨r2, hr2, hs, htr, hcl⟩ := ih (t + f.dur + 1) hff
    cases hfr : f.res with
    | dialFail =>
      refine ⟨⟨⟨t, f.rand % n⟩ :: r2.trace, r2.closes, r2.server, r2.rtime⟩, ?_, hs, ?_, ?_⟩
      · simp only [List.cons_append, connect, hfr, List.append_eq]
        rw [hr2]
        rfl
      · simp only [List.map_cons, htr]
        rfl
      · rw [hcl, List.countP_cons]
        simp [hfr]
    | hsFail =>
      refine ⟨⟨⟨t, f.rand % n⟩ :: r2.trace, r2.closes + 1, r2.server, r2.rtime⟩, ?_, hs, ?_, ?_⟩
      · simp only [List.cons_append, connect, hfr, List.append_eq]
        rw [hr2]
        rfl
      · simp only [List.map_cons, htr]
        rfl
      · rw [hcl, List.countP_cons]
        simp [hfr]
    | success => exact absurd hfr hf1

/-- Claim C6: `connect` has no error return at all: it yields a connection
exactly when some attempt's handshake eventually succeeds (any finite run
of failures is retried through — no retry limit), each attempt draws a
fresh random server index `rand % len(servers)`, every handshake failure
closes its partially opened socket, and the connection returned is the one
whose TLS handshake succeeded. -/
theorem connect_never_fails (n t : Nat) (fails : List ConnAttempt) (a : ConnAttempt)
    (rest : List ConnAttempt) (hf : ∀ b ∈ fails, b.res ≠ ConnRes.success)
    (ha : a.res = ConnRes.success) :
    (∀ (t2 : Nat) (as : List ConnAttempt),
      (connect n t2 as).isSome = true ↔ ∃ b ∈ as, b.res = ConnRes.success) ∧
    ∃ r, connect n t (fails ++ a :: rest) = some r ∧
      r.server = a.rand % n ∧
      r.trace.map DialEv.server = fails.map (fun b => b.rand % n) ++ [a.rand % n] ∧
      r.closes = fails.countP (fun b => decide (b.res = ConnRes.hsFail)) :=
  ⟨fun t2 as => connect_isSome n as t2, connect_shape n a rest ha fails t hf⟩

theorem connect_never_fails_witness :
    ((connect 2 7 [successAttempt]).isSome = true ↔
      ∃ b ∈ [successAttempt], b.res = ConnRes.success) ∧
    ∃ r, connect 2 5 ([dialFailAttempt, hsFailAttempt] ++ successAttempt :: []) = some r ∧
      r.server = successAttempt.rand % 2 ∧
      r.trace.map DialEv.server =
        [dialFailAttempt, hsFailAttempt].map (fun b => b.rand % 2) ++
          [successAttempt.rand % 2] ∧
      r.closes = [dialFailAttempt, hsFailAttempt].countP
        (fun b => decide (b.res = ConnRes.hsFail)) :=
  have h := connect_never_fails 2 5 [dialFailAttempt, hsFailAttempt] successAttempt []
    (by decide) rfl
  ⟨h.1 7 [successAttempt], h.2⟩

/-! ## Noninterference in the ack bytes, and claim C9 -/

theorem ackLoop_shape {r1 r2 : List ReadRes} (hF : List.Forall₂ readShape r1 r2) :
    ∀ a, ackShape (ackLoop a r1) (ackLoop a r2) := by
  induction hF with
  | nil =>
    intro a
    simp only [ackLoop]
    split
    · exact List.Forall₂.nil
    · exact List.Forall₂.nil
  | @cons x y t1 t2 hxy htail ih =>
    intro a
    cases x with
    | err =>
      cases y with
      | err =>
        simp only [ackLoop]
        split
        · exact List.Forall₂.nil
        · exact List.Forall₂.nil
      | ok b2 => exact hxy.elim
    | ok b1 =>
      cases y with
      | err => exact hxy.elim
      | ok b2 =>
        have hlen : b1.length = b2.length := hxy
        simp only [ackLoop]
        by_cases h6 : a = 6
        · rw [if_pos h6, if_pos h6]
          exact List.Forall₂.nil
        · rw [if_neg h6, if_neg h6, ← hlen]
          have hs := ih (a + b1.length)
          cases hA1 : ackLoop (a + b1.length) t1 <;>
            cases hA2 : ackLoop (a + b1.length) t2 <;>
            rw [hA1, hA2] at hs <;>
            first
              | exact hs.elim
              | exact List.Forall₂.cons hlen hs

theorem scrub_map_readAck {cs1 cs2 : List (List Byte)} (h : chunksShape cs1 cs2) :
    (cs1.map Ev.readAck).map scrub = (cs2.map Ev.readAck).map scrub := by
  induction h with
  | nil => rfl
  | cons hxy _ ih =>
    simp only [List.map_cons, scrub]
    rw [hxy, ih]

theorem runAttempt_shape (K : Nat) (P : List Byte) (s1 s2 : AttemptScript)
    (h : scriptShape s1 s2) :
    (runAttempt K P s1).1.map scrub = (runAttempt K P s2).1.map scrub ∧
    outKind (runAttempt K P s1).2 = outKind (runAttempt K P s2).2 := by
  obtain ⟨h1, h2, h3, h4, h5, hr⟩ := h
  simp only [runAttempt, h1, h2, h3, h4, h5]
  by_cases hb1 : s2.wWTag = false
  · simp [hb1]
  by_cases hb2 : s2.wWLen = false
  · simp [hb1, hb2]
  by_cases hb3 : s2.wCTag = false
  · simp [hb1, hb2, hb3]
  by_cases hb4 : s2.wCLen = false
  · simp [hb1, hb2, hb3, hb4]
  by_cases hb5 : s2.wBody = false
  · simp [hb1, hb2, hb3, hb4, hb5]
  simp only [if_neg hb1, if_neg hb2, if_neg hb3, if_neg hb4, if_neg hb5]
  have hs := ackLoop_shape hr 0
  cases hA1 : ackLoop 0 s1.reads <;> cases hA2 : ackLoop 0 s2.reads <;>
    rw [hA1, hA2] at hs <;>
    first
      | exact hs.elim
      | · constructor
          · simp only [List.map_append]
            rw [scrub_map_readAck hs]
          · rfl

theorem sendLoop_shape (K : Nat) (P : List Byte) {scr1 scr2 : List AttemptScript}
    (hF : List.Forall₂ scriptShape scr1 scr2) :
    (sendLoop K P scr1).2 = (sendLoop K P scr2).2 ∧
    (sendLoop K P scr1).1.map scrub = (sendLoop K P scr2).1.map scrub := by
  induction hF with
  | nil => exact ⟨rfl, rfl⟩
  | @cons x y t1 t2 hxy _ ih =>
    obtain ⟨hTr, hK⟩ := runAttempt_shape K P x y hxy
    rcases hO1 : runAttempt K P x with ⟨tr1, o1⟩
    rcases hO2 : runAttempt K P y with ⟨tr2, o2⟩
    rw [hO1, hO2] at hTr hK
    simp only at hTr hK
    cases o1 <;> cases o2 <;> simp only [outKind] at hK <;> try omega
    · -- wErr, wErr
      simp only [sendLoop, hO1, hO2]
      refine ⟨ih.1, ?_⟩
      simp only [List.map_append]
      rw [hTr, ih.2]
    · -- rErr, rErr
      simp only [sendLoop, hO1, hO2]
      refine ⟨ih.1, ?_⟩
      simp only [List.map_append]
      rw [hTr, ih.2]
    · -- done, done
      simp only [sendLoop, hO1, hO2]
      exact ⟨by trivial, hTr⟩
    · -- stuck, stuck
      simp only [sendLoop, hO1, hO2]
      exact ⟨by trivial, hTr⟩

/-- Claim C9: the worker never inspects the 6 acknowledgement bytes.  Two
runs whose scripted I/O differs only in the VALUES of the bytes read (same
write outcomes, same read lengths, same error positions) have the same
success flag, the same final sequence state, the same payload, and traces
equal once the ack byte values are erased; and any 6 bytes whatsoever —
read in one gulp — complete a batch successfully. -/
theorem ack_content_ignored (compress : List Byte → List Byte) (page : eventPage)
    (s : Nat) (buffer : List Byte) (scr1 scr2 : List AttemptScript)
    (h : List.Forall₂ scriptShape scr1 scr2) :
    (processPage compress page s buffer scr1).ok =
      (processPage compress page s buffer scr2).ok ∧
    (processPage compress page s buffer scr1).seqF =
      (processPage compress page s buffer scr2).seqF ∧
    (processPage compress page s buffer scr1).payload =
      (processPage compress page s buffer scr2).payload ∧
    (processPage compress page s buffer scr1).trace.map scrub =
      (processPage compress page s buffer scr2).trace.map scrub ∧
    ∀ bs : List Byte, bs.length = 6 →
      (processPage compress page s buffer [mkFullScript [ReadRes.ok bs]]).ok = true := by
  obtain ⟨hB, hTrc⟩ := sendLoop_shape page.length (pagePayload compress page s buffer) h
  refine ⟨?_, ?_, ?_, ?_, ?_⟩
  · simp only [processPage]
    rw [← hB]
    split <;> rfl
  · simp only [processPage]
    split <;> split <;> rfl
  · simp only [processPage]
    split <;> split <;> rfl
  · simp only [processPage]
    rw [← hB]
    split
    · simp only [List.map_append]
      rw [hTrc]
    · exact hTrc
  · intro bs hl
    have hA : ackLoop 0 [ReadRes.ok bs] = AckOut.complete [bs] := by
      simp [ackLoop, hl]
    simp [processPage, sendLoop, runAttempt, mkFullScript, hA]

theorem ack_content_ignored_witness :
    (processPage (fun bs => bs) [sampleEvent] 0 []
        [mkFullScript [ReadRes.ok [1, 2, 3, 4, 5, 6]]]).ok =
      (processPage (fun bs => bs) [sampleEvent] 0 []
        [mkFullScript [ReadRes.ok [0, 0, 0, 0, 0, 0]]]).ok ∧
    (processPage (fun bs => bs) [sampleEvent] 0 []
        [mkFullScript [ReadRes.ok [1, 2, 3, 4, 5, 6]]]).seqF =
      (processPage (fun bs => bs) [sampleEvent] 0 []
        [mkFullScript [ReadRes.ok [0, 0, 0, 0, 0, 0]]]).seqF ∧
    (processPage (fun bs => bs) [sampleEvent] 0 []
        [mkFullScript [ReadRes.ok [1, 2, 3, 4, 5, 6]]]).payload =
      (processPage (fun bs => bs) [sampleEvent] 0 []
        [mkFullScript [ReadRes.ok [0, 0, 0, 0, 0, 0]]]).payload ∧
    (processPage (fun bs => bs) [sampleEvent] 0 []
        [mkFullScript [ReadRes.ok [1, 2, 3, 4, 5, 6]]]).trace.map scrub =
      (processPage (fun bs => bs) [sampleEvent] 0 []
        [mkFullScript [ReadRes.ok [0, 0, 0, 0, 0, 0]]]).trace.map scrub ∧
    (processPage (fun bs => bs) [sampleEvent] 0 []
        [mkFullScript [ReadRes.ok [9, 9, 9, 9, 9, 9]]]).ok = true :=
  have h := ack_content_ignored (fun bs => bs) [sampleEvent] 0 []
    [mkFullScript [ReadRes.ok [1, 2, 3, 4, 5, 6]]]
    [mkFullScript [ReadRes.ok [0, 0, 0, 0, 0, 0]]]
    (List.Forall₂.cons ⟨rfl, rfl, rfl, rfl, rfl, List.Forall₂.cons rfl List.Forall₂.nil⟩
      List.Forall₂.nil)
  ⟨h.1, h.2.1, h.2.2.1, h.2.2.2.1, h.2.2.2.2 [9, 9, 9, 9, 9, 9] rfl⟩

end Publisher
